import Mathlib

/-!
Verification of the chess-tic-tac-toe rules engine, search AI and
multiplayer synchronization core (4×4 board, one pawn/rook/knight/bishop
per side).  The definitions below are a shallow embedding of the
JavaScript sources `game.js` (local/AI client) and `server.js`
(authoritative server); theorems check the natural-language specification
against them.
-/

namespace ChessTTT

/-- The two sides, `"X"` (White, plays first) and `"O"` (Black). -/
inductive Player where
  | X
  | O
deriving DecidableEq, Repr

/-- Toggling the side to move, `currentPlayer === "X" ? "O" : "X"`. -/
def Player.other : Player → Player
  | .X => .O
  | .O => .X

/-- The four piece kinds `["P", "R", "N", "B"]`. -/
inductive PieceType where
  | P
  | R
  | N
  | B
deriving DecidableEq, Repr

/-- A board cell's occupant: `{ player, type, dir? }`; `dir` is present
(a number) only for pawns. -/
structure Piece where
  player : Player
  type : PieceType
  dir : Option Int
deriving DecidableEq, Repr

/-- A board is the JS array of 16 cells, each `null` or a piece. -/
abbrev Board := List (Option Piece)

/-- JS `board[i]` for an in-range read (out-of-range handled by callers). -/
def cellAt (b : Board) (i : Nat) : Option Piece := b.getD i none

/-- `BOARD_SIZE = 4`. -/
def BOARD_SIZE : Int := 4

/-- `indexToRowCol`: row = ⌊i/4⌋, col = i mod 4. -/
def indexToRowCol (i : Nat) : Int × Int := ((i / 4 : Nat), (i % 4 : Nat))

/-- `rowColToIndex(row, col) = row * 4 + col`, then used as a JS array
index (non-negative in every reachable use). -/
def rowColToIndex (r c : Int) : Nat := (r * 4 + c).toNat

/-- The 10 canonical winning lines of `checkWinner`: 4 rows, 4 columns,
2 diagonals, in source order. -/
def winningLines : List (Nat × Nat × Nat × Nat) :=
  [ (0, 1, 2, 3), (4, 5, 6, 7), (8, 9, 10, 11), (12, 13, 14, 15),
    (0, 4, 8, 12), (1, 5, 9, 13), (2, 6, 10, 14), (3, 7, 11, 15),
    (0, 5, 10, 15), (3, 6, 9, 12) ]

/-- One iteration of the `checkWinner` loop: the line's first cell must be
occupied and the other three occupied by the same player. -/
def lineWinner (b : Board) : Nat × Nat × Nat × Nat → Option Player
  | (a, b0, c, d) =>
    match cellAt b a with
    | none => none
    | some first =>
      match cellAt b b0, cellAt b c, cellAt b d with
      | some p1, some p2, some p3 =>
        if p1.player = first.player ∧ p2.player = first.player ∧ p3.player = first.player then
          some first.player
        else none
      | _, _, _ => none

/-- `checkWinner(b)`: scan the 10 lines in order, return the owner of the
first fully-owned line, else `null`. -/
def checkWinner (b : Board) : Option Player :=
  winningLines.findSome? (lineWinner b)

/-- `isBoardFull(b)`: every cell is non-null. -/
def isBoardFull (b : Board) : Bool :=
  b.all (fun cell => cell.isSome)

/-- Spec-side predicate: the four cells of line `l` are all occupied by
pieces of side `p`. -/
def ownsLine (b : Board) (l : Nat × Nat × Nat × Nat) (p : Player) : Bool :=
  match l with
  | (a, b0, c, d) =>
    [a, b0, c, d].all fun i =>
      match cellAt b i with
      | some pc => pc.player = p
      | none => false

/-- Spec-side predicate: side `p` has some fully-owned winning line. -/
def sideHasLine (b : Board) (p : Player) : Prop :=
  ∃ l ∈ winningLines, ownsLine b l p = true

instance (b : Board) (p : Player) : Decidable (sideHasLine b p) :=
  inferInstanceAs (Decidable (∃ l ∈ winningLines, ownsLine b l p = true))

instance (q : Player → Prop) [DecidablePred q] : Decidable (∃ p : Player, q p) :=
  decidable_of_iff (q .X ∨ q .O) (by
    constructor
    · rintro (h | h)
      · exact ⟨_, h⟩
      · exact ⟨_, h⟩
    · rintro ⟨p, h⟩
      cases p
      · exact Or.inl h
      · exact Or.inr h)

/-- The game-end decision taken after every accepted action (`afterAction`
in the client, the post-move block of the server's `makeMove` handler):
a reported winner ends the game, otherwise a full board is a draw,
otherwise play goes on. -/
inductive Outcome where
  | winner (p : Player)
  | draw
  | ongoing
deriving DecidableEq, Repr

/-- Outcome Detector: `checkWinner` first, then the full-board draw test. -/
def detectOutcome (b : Board) : Outcome :=
  match checkWinner b with
  | some p => .winner p
  | none => if isBoardFull b then .draw else .ongoing

/-! ### Helper lemmas about the outcome detector -/

lemma findSome?_isSome_iff {α β : Type} (f : α → Option β) (l : List α) :
    (l.findSome? f).isSome ↔ ∃ x ∈ l, (f x).isSome := by
  induction l with
  | nil => simp [List.findSome?]
  | cons a l ih =>
    rw [List.findSome?_cons]
    cases h : f a with
    | none => simp [h, ih]
    | some b => simp [h]

lemma findSome?_eq_some_mem {α β : Type} {f : α → Option β} {l : List α} {b : β}
    (h : l.findSome? f = some b) : ∃ x ∈ l, f x = some b := by
  induction l with
  | nil => simp [List.findSome?] at h
  | cons a l ih =>
    rw [List.findSome?_cons] at h
    cases ha : f a with
    | none =>
      rw [ha] at h
      obtain ⟨x, hx, hfx⟩ := ih h
      exact ⟨x, List.mem_cons_of_mem _ hx, hfx⟩
    | some b2 =>
      rw [ha] at h
      cases h
      exact ⟨a, List.mem_cons_self _ _, ha⟩

lemma lineWinner_eq_some_iff (b : Board) (l : Nat × Nat × Nat × Nat) (p : Player) :
    lineWinner b l = some p ↔ ownsLine b l p = true := by
  obtain ⟨a, b0, c, d⟩ := l
  simp only [lineWinner, ownsLine, List.all_cons, List.all_nil, Bool.and_true]
  cases ha : cellAt b a with
  | none => simp
  | some f =>
    cases h1 : cellAt b b0 with
    | none => simp
    | some p1 =>
      cases h2 : cellAt b c with
      | none => simp
      | some p2 =>
        cases h3 : cellAt b d with
        | none => simp
        | some p3 =>
          simp only [Bool.and_eq_true, decide_eq_true_eq]
          by_cases hcond : p1.player = f.player ∧ p2.player = f.player ∧ p3.player = f.player
          · rw [if_pos hcond]
            constructor
            · intro hEq
              have hfp : f.player = p := Option.some.inj hEq
              exact ⟨hfp, hcond.1.trans hfp, hcond.2.1.trans hfp, hcond.2.2.trans hfp⟩
            · rintro ⟨hf, -, -, -⟩
              rw [hf]
          · rw [if_neg hcond]
            constructor
            · intro hEq
              exact Option.noConfusion hEq
            · rintro ⟨hf, h1p, h2p, h3p⟩
              exact absurd ⟨h1p.trans hf.symm, h2p.trans hf.symm, h3p.trans hf.symm⟩ hcond

lemma lineWinner_isSome_iff (b : Board) (l : Nat × Nat × Nat × Nat) :
    (lineWinner b l).isSome ↔ ∃ p, ownsLine b l p = true := by
  constructor
  · intro h
    obtain ⟨p, hp⟩ := Option.isSome_iff_exists.mp h
    exact ⟨p, (lineWinner_eq_some_iff b l p).mp hp⟩
  · rintro ⟨p, hp⟩
    exact Option.isSome_iff_exists.mpr ⟨p, (lineWinner_eq_some_iff b l p).mpr hp⟩

lemma checkWinner_isSome_iff (b : Board) :
    (checkWinner b).isSome ↔ ∃ p, sideHasLine b p := by
  rw [checkWinner, findSome?_isSome_iff]
  constructor
  · rintro ⟨l, hl, hsome⟩
    obtain ⟨p, hp⟩ := (lineWinner_isSome_iff b l).mp hsome
    exact ⟨p, l, hl, hp⟩
  · rintro ⟨p, l, hl, hp⟩
    exact ⟨l, hl, (lineWinner_isSome_iff b l).mpr ⟨p, hp⟩⟩

lemma checkWinner_sound {b : Board} {p : Player} (h : checkWinner b = some p) :
    sideHasLine b p := by
  obtain ⟨l, hl, hlw⟩ := findSome?_eq_some_mem h
  exact ⟨l, hl, (lineWinner_eq_some_iff b l p).mp hlw⟩

lemma checkWinner_eq_none_iff (b : Board) :
    checkWinner b = none ↔ ¬∃ p, sideHasLine b p := by
  rw [← checkWinner_isSome_iff]
  cases checkWinner b <;> simp

/-- If exactly one side has a line, `checkWinner` reports that side. -/
lemma checkWinner_eq_of_only {b : Board} {p : Player}
    (hp : sideHasLine b p) (hq : ¬ sideHasLine b p.other) :
    checkWinner b = some p := by
  have hsome : (checkWinner b).isSome := (checkWinner_isSome_iff b).mpr ⟨p, hp⟩
  obtain ⟨q, hqeq⟩ := Option.isSome_iff_exists.mp hsome
  have hq' := checkWinner_sound hqeq
  cases p <;> cases q <;> first
    | exact hqeq
    | exact absurd hq' hq

lemma isBoardFull_iff (b : Board) (hlen : b.length = 16) :
    isBoardFull b = true ↔ ∀ i < 16, (cellAt b i).isSome := by
  rw [isBoardFull, List.all_eq_true]
  constructor
  · intro h i hi
    have hi' : i < b.length := by omega
    have hmem : b[i] ∈ b := List.getElem_mem hi'
    have := h _ hmem
    rwa [cellAt, List.getD_eq_getElem b none hi']
  · intro h cell hcell
    obtain ⟨i, hi, rfl⟩ := List.getElem_of_mem hcell
    have := h i (by omega)
    rwa [cellAt, List.getD_eq_getElem b none hi] at this

/-- C2.  The Outcome Detector returns a winner exactly when one of the 10
fixed lines (4 rows, 4 columns, 2 diagonals) is fully occupied by a single
side — and the reported winner does own such a line — and it reports Draw
exactly when all 16 cells are occupied and no such line exists. -/
theorem C2_outcome_detector (b : Board) (hlen : b.length = 16) :
    ((checkWinner b).isSome ↔ ∃ p, sideHasLine b p)
    ∧ (∀ p, checkWinner b = some p → sideHasLine b p)
    ∧ (detectOutcome b = .draw ↔ (∀ i < 16, (cellAt b i).isSome) ∧ ¬∃ p, sideHasLine b p) := by
  refine ⟨checkWinner_isSome_iff b, fun p h => checkWinner_sound h, ?_⟩
  simp only [detectOutcome]
  cases hw : checkWinner b with
  | some p =>
    constructor
    · intro hEq
      exact Outcome.noConfusion hEq
    · rintro ⟨-, hno⟩
      exact absurd ⟨p, checkWinner_sound hw⟩ hno
  | none =>
    have hno := (checkWinner_eq_none_iff b).mp hw
    by_cases hfull : isBoardFull b = true
    · rw [if_pos hfull]
      exact ⟨fun _ => ⟨(isBoardFull_iff b hlen).mp hfull, hno⟩, fun _ => rfl⟩
    · rw [if_neg hfull]
      constructor
      · intro hEq
        exact Outcome.noConfusion hEq
      · rintro ⟨hocc, -⟩
        exact absurd ((isBoardFull_iff b hlen).mpr hocc) hfull

/-- Demonstration board: X's four pieces fill row 0, rest empty. -/
def demoRowBoard : Board :=
  [some ⟨.X, .R, none⟩, some ⟨.X, .N, none⟩, some ⟨.X, .B, none⟩, some ⟨.X, .P, some 1⟩]
    ++ List.replicate 12 none

/-- Witness for C2 at a concrete board with X owning row 0. -/
theorem C2_outcome_detector_witness :
    (checkWinner demoRowBoard).isSome ↔ ∃ p, sideHasLine demoRowBoard p :=
  (C2_outcome_detector demoRowBoard (by decide)).1

/-! ### Movement geometry (rook, bishop, knight, pawn) -/

/-- The `stepRow`/`stepCol` computation of the sliding-move loops:
`a === b ? 0 : b > a ? 1 : -1`. -/
def slideStep (a b : Int) : Int := if a = b then 0 else if b > a then 1 else -1

/-- The bishop's `stepRow`/`stepCol`: `d > 0 ? 1 : -1`. -/
def signStep (d : Int) : Int := if d > 0 then 1 else -1

/-- The `while (r !== tr || c !== tc)` loop of the sliding checks,
compiled with its iteration count made explicit: starting at `(r, c)` it
inspects `n` consecutive cells stepping by `(sr, sc)`, failing on the
first occupied one. -/
def pathFree (b : Board) (sr sc : Int) : Int → Int → Nat → Bool
  | _, _, 0 => true
  | r, c, n + 1 =>
    if (cellAt b (rowColToIndex r c)).isSome then false
    else pathFree b sr sc (r + sr) (c + sc) n

/-- `isLegalRookMove`: same row or column required; the loop then walks
the `max |Δr| |Δc| - 1` strictly-intermediate cells. -/
def isLegalRookMoveB (b : Board) (fr fc tr tc : Int) : Bool :=
  if fr ≠ tr ∧ fc ≠ tc then false
  else
    pathFree b (slideStep fr tr) (slideStep fc tc)
      (fr + slideStep fr tr) (fc + slideStep fc tc)
      (max (tr - fr).natAbs (tc - fc).natAbs - 1)

/-- `isLegalBishopMove`: `|Δr| = |Δc| ≠ 0` required; the loop then walks
the `|Δr| - 1` strictly-intermediate diagonal cells. -/
def isLegalBishopMoveB (b : Board) (fr fc tr tc : Int) : Bool :=
  if (tr - fr).natAbs ≠ (tc - fc).natAbs ∨ tr - fr = 0 then false
  else
    pathFree b (signStep (tr - fr)) (signStep (tc - fc))
      (fr + signStep (tr - fr)) (fc + signStep (tc - fc))
      ((tr - fr).natAbs - 1)

/-- `isLegalKnightMove`: displacement `(±1, ±2)` or `(±2, ±1)`. -/
def isLegalKnightMove (dr dc : Int) : Bool :=
  (dr.natAbs = 1 ∧ dc.natAbs = 2) ∨ (dr.natAbs = 2 ∧ dc.natAbs = 1)

/-- The pawn capture-target test `target && target.player !== piece.player`. -/
def isOpponentAt (b : Board) (idx : Nat) (pl : Player) : Bool :=
  match cellAt b idx with
  | some target => target.player ≠ pl
  | none => false

/-- `isLegalPawnMove` of `game.js`: forward step onto an empty cell,
an extra edge-rank step to the row opposite `dir` onto any empty cell
(no column constraint in the source), or a diagonal forward capture.
Forward row is `fr + dir` in this variant. -/
def isLegalPawnMoveG (b : Board) (fr fc tr tc : Int) (piece : Piece) : Bool :=
  match piece.dir with
  | none => false
  | some dir =>
    if tc = fc ∧ tr = fr + dir ∧ cellAt b (rowColToIndex tr tc) = none then true
    else if (fr = 0 ∨ fr = BOARD_SIZE - 1) ∧ tr = fr - dir
        ∧ cellAt b (rowColToIndex tr tc) = none then true
    else if tr = fr + dir ∧ (tc - fc).natAbs = 1
        ∧ isOpponentAt b (rowColToIndex tr tc) piece.player = true then true
    else false

/-- `isLegalPawnMove` of `server.js`: forward step (forward row is
`fr - dir` in this variant) onto an empty cell, or a diagonal forward
capture; nothing else. -/
def isLegalPawnMoveS (b : Board) (fr fc tr tc : Int) (piece : Piece) : Bool :=
  match piece.dir with
  | none => false
  | some dir =>
    if tc = fc ∧ tr = fr - dir ∧ cellAt b (rowColToIndex tr tc) = none then true
    else if tr = fr - dir ∧ (tc - fc).natAbs = 1
        ∧ isOpponentAt b (rowColToIndex tr tc) piece.player = true then true
    else false

/-- `isLegalMove` dispatch of `game.js` (given the board explicitly, as in
its `isLegalMoveOnBoard` twin). -/
def isLegalMoveG (b : Board) (fromIndex toIndex : Nat) (piece : Piece) : Bool :=
  match piece.type with
  | .R => isLegalRookMoveB b (indexToRowCol fromIndex).1 (indexToRowCol fromIndex).2
      (indexToRowCol toIndex).1 (indexToRowCol toIndex).2
  | .B => isLegalBishopMoveB b (indexToRowCol fromIndex).1 (indexToRowCol fromIndex).2
      (indexToRowCol toIndex).1 (indexToRowCol toIndex).2
  | .N => isLegalKnightMove ((indexToRowCol toIndex).1 - (indexToRowCol fromIndex).1)
      ((indexToRowCol toIndex).2 - (indexToRowCol fromIndex).2)
  | .P => isLegalPawnMoveG b (indexToRowCol fromIndex).1 (indexToRowCol fromIndex).2
      (indexToRowCol toIndex).1 (indexToRowCol toIndex).2 piece

/-- `isLegalMove` dispatch of `server.js`. -/
def isLegalMoveS (b : Board) (fromIndex toIndex : Nat) (piece : Piece) : Bool :=
  match piece.type with
  | .R => isLegalRookMoveB b (indexToRowCol fromIndex).1 (indexToRowCol fromIndex).2
      (indexToRowCol toIndex).1 (indexToRowCol toIndex).2
  | .B => isLegalBishopMoveB b (indexToRowCol fromIndex).1 (indexToRowCol fromIndex).2
      (indexToRowCol toIndex).1 (indexToRowCol toIndex).2
  | .N => isLegalKnightMove ((indexToRowCol toIndex).1 - (indexToRowCol fromIndex).1)
      ((indexToRowCol toIndex).2 - (indexToRowCol fromIndex).2)
  | .P => isLegalPawnMoveS b (indexToRowCol fromIndex).1 (indexToRowCol fromIndex).2
      (indexToRowCol toIndex).1 (indexToRowCol toIndex).2 piece

/-- C3 demonstration board: a single X pawn with `dir = -1` at cell 0
(row 0, col 0); all other cells empty. -/
def pawnDemoBoard : Board := some ⟨.X, .P, some (-1)⟩ :: List.replicate 15 none

/-- C3.  The claim that a pawn never has a legal sideways or backward
move fails in `game.js`: its edge-rank branch accepts a move from
(0,0) to (1,3) for an X pawn facing `-1` — a destination that is neither
the forward square (`fr + dir = -1`) nor a one-column diagonal capture —
while the `server.js` legality check rejects the same move. -/
theorem C3_pawn_no_sideways_backward :
    isLegalPawnMoveG pawnDemoBoard 0 0 1 3 ⟨.X, .P, some (-1)⟩ = true
    ∧ (1 : Int) ≠ 0 + (-1)
    ∧ ((3 : Int) - 0).natAbs ≠ 1
    ∧ isLegalPawnMoveS pawnDemoBoard 0 0 1 3 ⟨.X, .P, some (-1)⟩ = false := by
  refine ⟨by decide, by decide, by decide, by decide⟩

/-! ### Path blocking for the sliding pieces (C5) -/

/-- The list of cells the sliding-move loop inspects: `n` cells from
`(r, c)` stepping by `(sr, sc)`. -/
def walkCells (sr sc : Int) : Int → Int → Nat → List (Int × Int)
  | _, _, 0 => []
  | r, c, n + 1 => (r, c) :: walkCells sr sc (r + sr) (c + sc) n

lemma walkCells_mem_iff (sr sc : Int) (n : Nat) (r0 c0 x y : Int) :
    (x, y) ∈ walkCells sr sc r0 c0 n
      ↔ ∃ k : Nat, k < n ∧ x = r0 + k * sr ∧ y = c0 + k * sc := by
  induction n generalizing r0 c0 with
  | zero => simp [walkCells]
  | succ n ih =>
    simp only [walkCells, List.mem_cons, ih, Prod.mk.injEq]
    constructor
    · rintro (⟨rfl, rfl⟩ | ⟨k, hk, rfl, rfl⟩)
      · exact ⟨0, by omega, by simp, by simp⟩
      · refine ⟨k + 1, by omega, by push_cast; ring, by push_cast; ring⟩
    · rintro ⟨k, hk, rfl, rfl⟩
      cases k with
      | zero => left; constructor <;> simp
      | succ k =>
        right
        exact ⟨k, by omega, by push_cast; ring, by push_cast; ring⟩

lemma pathFree_eq_all (b : Board) (sr sc : Int) (n : Nat) (r0 c0 : Int) :
    pathFree b sr sc r0 c0 n
      = (walkCells sr sc r0 c0 n).all
          (fun rc => (cellAt b (rowColToIndex rc.1 rc.2)).isNone) := by
  induction n generalizing r0 c0 with
  | zero => simp [pathFree, walkCells]
  | succ n ih =>
    simp only [pathFree, walkCells, List.all_cons]
    cases h : cellAt b (rowColToIndex r0 c0) with
    | some pc => simp [h]
    | none => simp [h, ih]

lemma pathFree_iff (b : Board) (sr sc : Int) (n : Nat) (r0 c0 : Int) :
    pathFree b sr sc r0 c0 n = true
      ↔ ∀ k : Nat, k < n → cellAt b (rowColToIndex (r0 + k * sr) (c0 + k * sc)) = none := by
  rw [pathFree_eq_all, List.all_eq_true]
  constructor
  · intro h k hk
    have := h (r0 + k * sr, c0 + k * sc)
      ((walkCells_mem_iff sr sc n r0 c0 _ _).mpr ⟨k, hk, rfl, rfl⟩)
    simpa [Option.isNone_iff_eq_none] using this
  · rintro h ⟨x, y⟩ hmem
    obtain ⟨k, hk, rfl, rfl⟩ := (walkCells_mem_iff sr sc n r0 c0 x y).mp hmem
    simpa [Option.isNone_iff_eq_none] using h k hk

/-- Spec-side: `x` lies strictly between `a` and `b`. -/
def strictlyBetweenInt (a b x : Int) : Prop :=
  (a < x ∧ x < b) ∨ (b < x ∧ x < a)

/-- Spec-side: `(r, c)` is a cell strictly between `(fr, fc)` and
`(tr, tc)` on their shared row or column. -/
def rookPathCell (fr fc tr tc r c : Int) : Prop :=
  (fr = tr ∧ r = fr ∧ strictlyBetweenInt fc tc c)
  ∨ (fc = tc ∧ c = fc ∧ strictlyBetweenInt fr tr r)

/-- Spec-side: `(r, c)` is a cell strictly between `(fr, fc)` and
`(tr, tc)` on their shared diagonal. -/
def bishopPathCell (fr fc tr tc r c : Int) : Prop :=
  strictlyBetweenInt fr tr r ∧ strictlyBetweenInt fc tc c
  ∧ (r - fr) * (tc - fc) = (c - fc) * (tr - fr)

lemma rook_pathFree_iff (b : Board) (fr fc tr tc : Int) (halign : fr = tr ∨ fc = tc) :
    pathFree b (slideStep fr tr) (slideStep fc tc)
        (fr + slideStep fr tr) (fc + slideStep fc tc)
        (max (tr - fr).natAbs (tc - fc).natAbs - 1) = true
      ↔ ∀ r c : Int, rookPathCell fr fc tr tc r c → cellAt b (rowColToIndex r c) = none := by
  rw [pathFree_iff]
  unfold rookPathCell strictlyBetweenInt
  rcases halign with heq | heq
  · -- same row: fr = tr
    rcases lt_trichotomy fc tc with hlt | hceq | hgt
    · -- moving right along the row
      have hs1 : slideStep fr tr = 0 := by simp [slideStep, heq]
      have hs2 : slideStep fc tc = 1 := by
        simp only [slideStep]
        rw [if_neg (by omega), if_pos (by omega)]
      rw [hs1, hs2]
      constructor
      · rintro h r c (⟨-, he, hsb⟩ | ⟨he1, he2, hsb⟩)
        · rcases hsb with ⟨h1, h2⟩ | ⟨h1, h2⟩
          · have hk := h (c - fc - 1).toNat (by omega)
            have heq1 : fr + 0 + ((c - fc - 1).toNat : Int) * 0 = r := by omega
            have heq2 : fc + 1 + ((c - fc - 1).toNat : Int) * 1 = c := by omega
            rwa [heq1, heq2] at hk
          · omega
        · rcases hsb with ⟨h1, h2⟩ | ⟨h1, h2⟩ <;> omega
      · intro h k hk
        apply h
        left
        refine ⟨heq, by omega, Or.inl ⟨by omega, by omega⟩⟩
    · -- degenerate: same column as well, no intermediate cells
      constructor
      · rintro - r c (⟨-, -, hsb⟩ | ⟨-, -, hsb⟩) <;>
          rcases hsb with ⟨h1, h2⟩ | ⟨h1, h2⟩ <;> omega
      · rintro - k hk
        omega
    · -- moving left along the row
      have hs1 : slideStep fr tr = 0 := by simp [slideStep, heq]
      have hs2 : slideStep fc tc = -1 := by
        simp only [slideStep]
        rw [if_neg (by omega), if_neg (by omega)]
      rw [hs1, hs2]
      constructor
      · rintro h r c (⟨-, he, hsb⟩ | ⟨he1, he2, hsb⟩)
        · rcases hsb with ⟨h1, h2⟩ | ⟨h1, h2⟩
          · omega
          · have hk := h (fc - c - 1).toNat (by omega)
            have heq1 : fr + 0 + ((fc - c - 1).toNat : Int) * 0 = r := by omega
            have heq2 : fc + -1 + ((fc - c - 1).toNat : Int) * -1 = c := by omega
            rwa [heq1, heq2] at hk
        · rcases hsb with ⟨h1, h2⟩ | ⟨h1, h2⟩ <;> omega
      · intro h k hk
        apply h
        left
        refine ⟨heq, by omega, Or.inr ⟨by omega, by omega⟩⟩
  · -- same column: fc = tc
    rcases lt_trichotomy fr tr with hlt | hreq | hgt
    · -- moving down the column
      have hs2 : slideStep fc tc = 0 := by simp [slideStep, heq]
      have hs1 : slideStep fr tr = 1 := by
        simp only [slideStep]
        rw [if_neg (by omega), if_pos (by omega)]
      rw [hs1, hs2]
      constructor
      · rintro h r c (⟨he1, he2, hsb⟩ | ⟨-, he, hsb⟩)
        · rcases hsb with ⟨h1, h2⟩ | ⟨h1, h2⟩ <;> omega
        · rcases hsb with ⟨h1, h2⟩ | ⟨h1, h2⟩
          · have hk := h (r - fr - 1).toNat (by omega)
            have heq1 : fr + 1 + ((r - fr - 1).toNat : Int) * 1 = r := by omega
            have heq2 : fc + 0 + ((r - fr - 1).toNat : Int) * 0 = c := by omega
            rwa [heq1, heq2] at hk
          · omega
      · intro h k hk
        apply h
        right
        refine ⟨heq, by omega, Or.inl ⟨by omega, by omega⟩⟩
    · constructor
      · rintro - r c (⟨-, -, hsb⟩ | ⟨-, -, hsb⟩) <;>
          rcases hsb with ⟨h1, h2⟩ | ⟨h1, h2⟩ <;> omega
      · rintro - k hk
        omega
    · -- moving up the column
      have hs2 : slideStep fc tc = 0 := by simp [slideStep, heq]
      have hs1 : slideStep fr tr = -1 := by
        simp only [slideStep]
        rw [if_neg (by omega), if_neg (by omega)]
      rw [hs1, hs2]
      constructor
      · rintro h r c (⟨he1, he2, hsb⟩ | ⟨-, he, hsb⟩)
        · rcases hsb with ⟨h1, h2⟩ | ⟨h1, h2⟩ <;> omega
        · rcases hsb with ⟨h1, h2⟩ | ⟨h1, h2⟩
          · omega
          · have hk := h (fr - r - 1).toNat (by omega)
            have heq1 : fr + -1 + ((fr - r - 1).toNat : Int) * -1 = r := by omega
            have heq2 : fc + 0 + ((fr - r - 1).toNat : Int) * 0 = c := by omega
            rwa [heq1, heq2] at hk
      · intro h k hk
        apply h
        right
        refine ⟨heq, by omega, Or.inr ⟨by omega, by omega⟩⟩

lemma bishop_pathFree_iff (b : Board) (fr fc tr tc : Int)
    (habs : (tr - fr).natAbs = (tc - fc).natAbs) (hne : tr - fr ≠ 0) :
    pathFree b (signStep (tr - fr)) (signStep (tc - fc))
        (fr + signStep (tr - fr)) (fc + signStep (tc - fc))
        ((tr - fr).natAbs - 1) = true
      ↔ ∀ r c : Int, bishopPathCell fr fc tr tc r c → cellAt b (rowColToIndex r c) = none := by
  rw [pathFree_iff]
  unfold bishopPathCell strictlyBetweenInt
  rcases lt_or_gt_of_ne hne with hd | hd
  · -- Δrow negative
    rcases lt_trichotomy (tc - fc) 0 with he0 | he0 | he0
    · -- Δcol negative as well
      have hs1 : signStep (tr - fr) = -1 := by
        simp only [signStep]
        rw [if_neg (by omega)]
      have hs2 : signStep (tc - fc) = -1 := by
        simp only [signStep]
        rw [if_neg (by omega)]
      rw [hs1, hs2]
      constructor
      · rintro h r c ⟨hsbr, hsbc, hcol⟩
        have he : tc - fc = tr - fr := by omega
        rw [he] at hcol
        have hcc := mul_right_cancel₀ hne hcol
        rcases hsbr with ⟨h1, h2⟩ | ⟨h1, h2⟩
        · omega
        · have hk := h (fr - r - 1).toNat (by omega)
          have heq1 : fr + -1 + ((fr - r - 1).toNat : Int) * -1 = r := by omega
          have heq2 : fc + -1 + ((fr - r - 1).toNat : Int) * -1 = c := by omega
          rwa [heq1, heq2] at hk
      · intro h k hk
        apply h
        refine ⟨Or.inr ⟨by omega, by omega⟩, Or.inr ⟨by omega, by omega⟩, ?_⟩
        have he : tc - fc = tr - fr := by omega
        rw [he]
        ring
    · omega
    · -- Δrow negative, Δcol positive
      have hs1 : signStep (tr - fr) = -1 := by
        simp only [signStep]
        rw [if_neg (by omega)]
      have hs2 : signStep (tc - fc) = 1 := by
        simp only [signStep]
        rw [if_pos (by omega)]
      rw [hs1, hs2]
      constructor
      · rintro h r c ⟨hsbr, hsbc, hcol⟩
        have he : tc - fc = -(tr - fr) := by omega
        rw [he] at hcol
        have hcol2 : (-(r - fr)) * (tr - fr) = (c - fc) * (tr - fr) := by
          linear_combination hcol
        have hcc := mul_right_cancel₀ hne hcol2
        rcases hsbr with ⟨h1, h2⟩ | ⟨h1, h2⟩
        · omega
        · have hk := h (fr - r - 1).toNat (by omega)
          have heq1 : fr + -1 + ((fr - r - 1).toNat : Int) * -1 = r := by omega
          have heq2 : fc + 1 + ((fr - r - 1).toNat : Int) * 1 = c := by omega
          rwa [heq1, heq2] at hk
      · intro h k hk
        apply h
        refine ⟨Or.inr ⟨by omega, by omega⟩, Or.inl ⟨by omega, by omega⟩, ?_⟩
        have he : tc - fc = -(tr - fr) := by omega
        rw [he]
        ring
  · -- Δrow positive
    rcases lt_trichotomy (tc - fc) 0 with he0 | he0 | he0
    · -- Δcol negative
      have hs1 : signStep (tr - fr) = 1 := by
        simp only [signStep]
        rw [if_pos (by omega)]
      have hs2 : signStep (tc - fc) = -1 := by
        simp only [signStep]
        rw [if_neg (by omega)]
      rw [hs1, hs2]
      constructor
      · rintro h r c ⟨hsbr, hsbc, hcol⟩
        have he : tc - fc = -(tr - fr) := by omega
        rw [he] at hcol
        have hcol2 : (-(r - fr)) * (tr - fr) = (c - fc) * (tr - fr) := by
          linear_combination hcol
        have hcc := mul_right_cancel₀ hne hcol2
        rcases hsbr with ⟨h1, h2⟩ | ⟨h1, h2⟩
        · have hk := h (r - fr - 1).toNat (by omega)
          have heq1 : fr + 1 + ((r - fr - 1).toNat : Int) * 1 = r := by omega
          have heq2 : fc + -1 + ((r - fr - 1).toNat : Int) * -1 = c := by omega
          rwa [heq1, heq2] at hk
        · omega
      · intro h k hk
        apply h
        refine ⟨Or.inl ⟨by omega, by omega⟩, Or.inr ⟨by omega, by omega⟩, ?_⟩
        have he : tc - fc = -(tr - fr) := by omega
        rw [he]
        ring
    · omega
    · -- both positive
      have hs1 : signStep (tr - fr) = 1 := by
        simp only [signStep]
        rw [if_pos (by omega)]
      have hs2 : signStep (tc - fc) = 1 := by
        simp only [signStep]
        rw [if_pos (by omega)]
      rw [hs1, hs2]
      constructor
      · rintro h r c ⟨hsbr, hsbc, hcol⟩
        have he : tc - fc = tr - fr := by omega
        rw [he] at hcol
        have hcc := mul_right_cancel₀ hne hcol
        rcases hsbr with ⟨h1, h2⟩ | ⟨h1, h2⟩
        · have hk := h (r - fr - 1).toNat (by omega)
          have heq1 : fr + 1 + ((r - fr - 1).toNat : Int) * 1 = r := by omega
          have heq2 : fc + 1 + ((r - fr - 1).toNat : Int) * 1 = c := by omega
          rwa [heq1, heq2] at hk
        · omega
      · intro h k hk
        apply h
        refine ⟨Or.inl ⟨by omega, by omega⟩, Or.inl ⟨by omega, by omega⟩, ?_⟩
        have he : tc - fc = tr - fr := by omega
        rw [he]
        ring

/-- C5.  A Rook or Bishop move passes the geometry check exactly when it
is path-aligned (same row/column for the rook, `|Δrow| = |Δcol| ≠ 0` for
the bishop) and every cell strictly between source and destination along
the straight or diagonal path is empty; any occupied intervening cell
rejects the move. -/
theorem C5_sliding_path_blocking (b : Board) (fr fc tr tc : Int) :
    (isLegalRookMoveB b fr fc tr tc = true
      ↔ (fr = tr ∨ fc = tc)
        ∧ ∀ r c : Int, rookPathCell fr fc tr tc r c → cellAt b (rowColToIndex r c) = none)
    ∧ (isLegalBishopMoveB b fr fc tr tc = true
      ↔ ((tr - fr).natAbs = (tc - fc).natAbs ∧ tr - fr ≠ 0)
        ∧ ∀ r c : Int, bishopPathCell fr fc tr tc r c → cellAt b (rowColToIndex r c) = none) := by
  constructor
  · unfold isLegalRookMoveB
    by_cases halign : fr ≠ tr ∧ fc ≠ tc
    · rw [if_pos halign]
      simp only [Bool.false_eq_true, false_iff]
      rintro ⟨(h | h), -⟩
      · exact halign.1 h
      · exact halign.2 h
    · rw [if_neg halign]
      have halign2 : fr = tr ∨ fc = tc := by tauto
      rw [rook_pathFree_iff b fr fc tr tc halign2]
      constructor
      · intro h
        exact ⟨halign2, h⟩
      · rintro ⟨-, h⟩
        exact h
  · unfold isLegalBishopMoveB
    by_cases hcond : (tr - fr).natAbs ≠ (tc - fc).natAbs ∨ tr - fr = 0
    · rw [if_pos hcond]
      simp only [Bool.false_eq_true, false_iff]
      rintro ⟨⟨h1, h2⟩, -⟩
      rcases hcond with h | h
      · exact h h1
      · exact h2 h
    · rw [if_neg hcond]
      push_neg at hcond
      rw [bishop_pathFree_iff b fr fc tr tc hcond.1 hcond.2]
      constructor
      · intro h
        exact ⟨⟨hcond.1, hcond.2⟩, h⟩
      · rintro ⟨-, h⟩
        exact h

/-! ### Game state, placement and movement (client `game.js` and the
authoritative `server.js` `makeMove` handler) -/

/-- The two piece pools, `pools = { X: [...], O: [...] }`. -/
structure Pools where
  x : List PieceType
  o : List PieceType
deriving DecidableEq, Repr

/-- `pools[player]`. -/
def poolGet (p : Pools) : Player → List PieceType
  | .X => p.x
  | .O => p.o

/-- Writing one side's pool back. -/
def poolSet (p : Pools) : Player → List PieceType → Pools
  | .X, l => { p with x := l }
  | .O, l => { p with o := l }

/-- The shared game state: board, pools, side to move, `gameOver` flag and
the server-side `winner` field (`null` and untouched in the local client). -/
structure GameState where
  board : Board
  pools : Pools
  currentPlayer : Player
  gameOver : Bool
  winner : Option Player
deriving DecidableEq, Repr

/-- `createInitialGameState()` / `initGame()`: empty board, both pools
`[P, R, N, B]`, X to move. -/
def initialGameState : GameState :=
  { board := List.replicate 16 none
    pools := { x := [.P, .R, .N, .B], o := [.P, .R, .N, .B] }
    currentPlayer := .X
    gameOver := false
    winner := none }

/-- The per-cell predicate of `countPiecesOnBoard`'s reduce:
`cell && cell.player === player`. -/
def ownedBy (player : Player) (cell : Option Piece) : Bool :=
  match cell with
  | some pc => pc.player = player
  | none => false

/-- `countPiecesOnBoard(board, player)`. -/
def countPiecesOnBoard (b : Board) (player : Player) : Nat :=
  b.countP (ownedBy player)

/-- `bothPlayersHaveThree`: both sides have at least three pieces on the
board; this is the (recomputed, derived) phase test. -/
def bothPlayersHaveThree (b : Board) : Prop :=
  3 ≤ countPiecesOnBoard b .X ∧ 3 ≤ countPiecesOnBoard b .O

instance (b : Board) : Decidable (bothPlayersHaveThree b) :=
  inferInstanceAs (Decidable (_ ∧ _))

/-- The game-end bookkeeping run after every accepted action: set
`gameOver`/`winner` on a win, `gameOver` on a full board, else pass the
turn.  (`afterAction` in `game.js` does the same except that it has no
`winner` field to set, see `afterActionLocal`.) -/
def advanceTurn (g : GameState) : GameState :=
  match checkWinner g.board with
  | some w => { g with gameOver := true, winner := some w }
  | none =>
    if isBoardFull g.board then { g with gameOver := true }
    else { g with currentPlayer := g.currentPlayer.other }

/-- `afterAction` of `game.js`: as `advanceTurn` but the local client
keeps no `winner` field (the result is only shown in the status line). -/
def afterActionLocal (g : GameState) : GameState :=
  match checkWinner g.board with
  | some _ => { g with gameOver := true }
  | none =>
    if isBoardFull g.board then { g with gameOver := true }
    else { g with currentPlayer := g.currentPlayer.other }

/-- A client-submitted `makeMove` payload: `action` is the `"place"` or
`"move"` string, `other` stands for any unrecognised `action` value
(the handler inspects nothing else of such a payload). -/
inductive ActionData where
  | place (index : Fin 16) (ptype : PieceType)
  | move (fromIndex toIndex : Fin 16)
  | other
deriving DecidableEq, Repr

/-- The error messages the `makeMove` handler can emit. -/
inductive ServerErr where
  | gameIsOver
  | notYourTurn
  | cellNotEmpty
  | pieceNotAvailable
  | cannotMoveYet
  | invalidMove
  | cannotCaptureOwn
  | illegalMove
deriving DecidableEq, Repr

/-- The "destination holds one of the mover's own pieces" test
(`toCell && toCell.player === playerId`). -/
def ownPieceAt (b : Board) (idx : Nat) (pl : Player) : Bool :=
  match cellAt b idx with
  | some tc => tc.player = pl
  | none => false

/-- The pawn-direction reversal applied after a move lands on row 0 or
row 3 (`board[toIndex].dir = -fromCell.dir`, guarded by the piece being a
pawn with a numeric `dir`). -/
def pawnEdgeAdjust (pc : Piece) (toIndex : Nat) : Piece :=
  match pc.type, pc.dir with
  | .P, some d =>
    if (indexToRowCol toIndex).1 = 0 ∨ (indexToRowCol toIndex).1 = BOARD_SIZE - 1 then
      { pc with dir := some (-d) }
    else pc
  | _, _ => pc

/-- The board/pool mutation shared by the server's move branch and
`tryMovePiece`/`applyMove`: push a captured piece's kind to its owner's
pool, move the piece (with pawn edge flip), clear the source. -/
def applyMoveCore (b : Board) (p : Pools) (fromIndex toIndex : Nat) (fromCell : Piece) :
    Board × Pools :=
  let toCell := cellAt b toIndex
  let p2 :=
    match toCell with
    | some tc =>
      if tc.player ≠ fromCell.player then poolSet p tc.player (poolGet p tc.player ++ [tc.type])
      else p
    | none => p
  ((b.set toIndex (some (pawnEdgeAdjust fromCell toIndex))).set fromIndex none, p2)

/-- The piece the server's place branch constructs: initial pawn
direction X ↦ -1, O ↦ 1, negated when placed directly on the side's far
edge rank (indices 12–15 for X, 0–3 for O). -/
def serverPlacedPiece (pid : Player) (ptype : PieceType) (index : Nat) : Piece :=
  if ptype = .P ∧ ((12 ≤ index ∧ pid = .X) ∨ (index ≤ 3 ∧ pid = .O)) then
    ⟨pid, ptype,
      (if ptype = .P then some (if pid = .X then (-1 : Int) else 1) else none).map (fun d => -d)⟩
  else ⟨pid, ptype, if ptype = .P then some (if pid = .X then (-1 : Int) else 1) else none⟩

/-- The piece `placePiece` of `game.js` constructs: initial pawn
direction X ↦ -1, O ↦ 1, no edge special case. -/
def localPlacedPiece (player : Player) (ptype : PieceType) : Piece :=
  ⟨player, ptype, if ptype = .P then some (if player = .X then -1 else 1) else none⟩

/-- The `makeMove` socket handler of `server.js`, from the `gameOver`
check on (the session/room lookups that precede it are resolved by the
caller into `pid`, the submitting connection's side).  Returns the new
state and the error sent back, if any; every error path leaves the state
untouched in the source. -/
def makeMove (gs : GameState) (pid : Player) (data : ActionData) :
    GameState × Option ServerErr :=
  if gs.gameOver then (gs, some .gameIsOver)
  else if gs.currentPlayer ≠ pid then (gs, some .notYourTurn)
  else
    match data with
    | .place index ptype =>
      if (cellAt gs.board index.val).isSome then (gs, some .cellNotEmpty)
      else if ptype ∈ poolGet gs.pools pid then
        (advanceTurn
          { gs with
            board := gs.board.set index.val (some (serverPlacedPiece pid ptype index.val))
            pools := poolSet gs.pools pid ((poolGet gs.pools pid).erase ptype) }, none)
      else (gs, some .pieceNotAvailable)
    | .move fromIndex toIndex =>
      if ¬ bothPlayersHaveThree gs.board then (gs, some .cannotMoveYet)
      else
        match cellAt gs.board fromIndex.val with
        | none => (gs, some .invalidMove)
        | some fromCell =>
          if fromCell.player ≠ pid then (gs, some .invalidMove)
          else if ownPieceAt gs.board toIndex.val pid then (gs, some .cannotCaptureOwn)
          else if ¬ isLegalMoveS gs.board fromIndex.val toIndex.val fromCell then
            (gs, some .illegalMove)
          else
            let bp := applyMoveCore gs.board gs.pools fromIndex.val toIndex.val fromCell
            (advanceTurn { gs with board := bp.1, pools := bp.2 }, none)
    | .other => (advanceTurn gs, none)

/-- `placePiece` of `game.js`: the local placement path (silently ignores
rejected placements; `none` models the early returns).  The initial pawn
direction is X ↦ -1, O ↦ 1, with no edge-rank special case. -/
def localPlacePiece (gs : GameState) (player : Player) (ptype : PieceType) (index : Fin 16) :
    Option GameState :=
  if gs.gameOver then none
  else if player ≠ gs.currentPlayer then none
  else if (cellAt gs.board index.val).isSome then none
  else if ptype ∈ poolGet gs.pools player then
    some (afterActionLocal
      { gs with
        board := gs.board.set index.val (some (localPlacedPiece player ptype))
        pools := poolSet gs.pools player ((poolGet gs.pools player).erase ptype) })
  else none

/-- `tryMovePiece` of `game.js`: the local movement path (`false` of the
source becomes `none`). -/
def localTryMovePiece (gs : GameState) (fromIndex toIndex : Fin 16) : Option GameState :=
  if gs.gameOver then none
  else if ¬ bothPlayersHaveThree gs.board then none
  else
    match cellAt gs.board fromIndex.val with
    | none => none
    | some fromCell =>
      if fromCell.player ≠ gs.currentPlayer then none
      else if fromIndex = toIndex then none
      else if ownPieceAt gs.board toIndex.val gs.currentPlayer then none
      else if ¬ isLegalMoveG gs.board fromIndex.val toIndex.val fromCell then none
      else
        let bp := applyMoveCore gs.board gs.pools fromIndex.val toIndex.val fromCell
        some (afterActionLocal { gs with board := bp.1, pools := bp.2 })

/-- The states reachable from the initial game through the public
interface: accepted server `makeMove` actions and accepted local
`placePiece`/`tryMovePiece` actions, in any mix. -/
inductive Reachable : GameState → Prop where
  | init : Reachable initialGameState
  | server (g : GameState) (pid : Player) (data : ActionData) :
      Reachable g → (makeMove g pid data).2 = none → Reachable (makeMove g pid data).1
  | localPlace (g : GameState) (player : Player) (ptype : PieceType) (index : Fin 16)
      (g2 : GameState) :
      Reachable g → localPlacePiece g player ptype index = some g2 → Reachable g2
  | localMove (g : GameState) (fromIndex toIndex : Fin 16) (g2 : GameState) :
      Reachable g → localTryMovePiece g fromIndex toIndex = some g2 → Reachable g2

/-! ### State invariants: material conservation and pawn facing -/

/-- A piece's `dir` is well formed: pawns carry exactly `+1` or `-1`. -/
def dirOK (pc : Piece) : Prop :=
  pc.type = .P → pc.dir = some 1 ∨ pc.dir = some (-1)

/-- The master invariant: 16 cells, material conservation for both sides,
and well-formed pawn facings. -/
def StateInv (g : GameState) : Prop :=
  g.board.length = 16
  ∧ (∀ pl, countPiecesOnBoard g.board pl + (poolGet g.pools pl).length = 4)
  ∧ ∀ i pc, cellAt g.board i = some pc → dirOK pc

lemma countP_set_add {α : Type} (p : α → Bool) :
    ∀ (l : List α) (i : Nat) (h : i < l.length) (v : α),
      (l.set i v).countP p + (if p (l.get ⟨i, h⟩) then 1 else 0)
        = l.countP p + (if p v then 1 else 0) := by
  intro l
  induction l with
  | nil =>
    intro i h v
    simp at h
  | cons a as ih =>
    intro i h v
    cases i with
    | zero =>
      simp only [List.set_cons_zero, List.countP_cons, List.get]
      omega
    | succ i =>
      have h2 : i < as.length := by simpa using h
      simp only [List.set_cons_succ, List.countP_cons, List.get]
      have := ih i h2 v
      omega

lemma cellAt_eq_get (b : Board) (i : Nat) (h : i < b.length) :
    cellAt b i = b.get ⟨i, h⟩ := by
  rw [cellAt, List.getD_eq_getElem b none h, List.get_eq_getElem]

lemma cellAt_set_self (b : Board) (i : Nat) (hi : i < b.length) (v : Option Piece) :
    cellAt (b.set i v) i = v := by
  rw [cellAt, List.getD_eq_getElem?_getD, List.getElem?_set_eq_of_lt v hi]
  rfl

lemma cellAt_set_ne (b : Board) (i j : Nat) (hij : i ≠ j) (v : Option Piece) :
    cellAt (b.set i v) j = cellAt b j := by
  rw [cellAt, cellAt, List.getD_eq_getElem?_getD, List.getD_eq_getElem?_getD,
    List.getElem?_set_ne hij]

lemma count_set (b : Board) (i : Nat) (hi : i < b.length) (v : Option Piece) (pl : Player) :
    countPiecesOnBoard (b.set i v) pl + (if ownedBy pl (cellAt b i) then 1 else 0)
      = countPiecesOnBoard b pl + (if ownedBy pl v then 1 else 0) := by
  unfold countPiecesOnBoard
  have h := countP_set_add (ownedBy pl) b i hi v
  rwa [← cellAt_eq_get b i hi] at h

lemma poolGet_poolSet (p : Pools) (pl q : Player) (l : List PieceType) :
    poolGet (poolSet p pl l) q = if q = pl then l else poolGet p q := by
  cases pl <;> cases q <;> simp [poolGet, poolSet]

lemma pawnEdgeAdjust_player (pc : Piece) (t : Nat) :
    (pawnEdgeAdjust pc t).player = pc.player := by
  unfold pawnEdgeAdjust
  split
  · split <;> rfl
  · rfl

lemma dirOK_pawnEdgeAdjust (pc : Piece) (t : Nat) (h : dirOK pc) :
    dirOK (pawnEdgeAdjust pc t) := by
  unfold pawnEdgeAdjust
  split
  · next d heq1 heq2 =>
    have hd := h heq1
    rw [heq2] at hd
    split
    · intro _hp
      rcases hd with hd | hd
      · have hd2 : d = 1 := Option.some.inj hd
        subst hd2
        right
        rfl
      · have hd2 : d = -1 := Option.some.inj hd
        subst hd2
        left
        simp
    · exact h
  · exact h

lemma advanceTurn_board (g : GameState) : (advanceTurn g).board = g.board := by
  unfold advanceTurn
  split
  · rfl
  · split <;> rfl

lemma advanceTurn_pools (g : GameState) : (advanceTurn g).pools = g.pools := by
  unfold advanceTurn
  split
  · rfl
  · split <;> rfl

lemma afterActionLocal_board (g : GameState) : (afterActionLocal g).board = g.board := by
  unfold afterActionLocal
  split
  · rfl
  · split <;> rfl

lemma afterActionLocal_pools (g : GameState) : (afterActionLocal g).pools = g.pools := by
  unfold afterActionLocal
  split
  · rfl
  · split <;> rfl

lemma stateInv_advanceTurn (g : GameState) (h : StateInv g) : StateInv (advanceTurn g) := by
  unfold StateInv at h ⊢
  rw [advanceTurn_board, advanceTurn_pools]
  exact h

lemma stateInv_afterActionLocal (g : GameState) (h : StateInv g) :
    StateInv (afterActionLocal g) := by
  unfold StateInv at h ⊢
  rw [afterActionLocal_board, afterActionLocal_pools]
  exact h

lemma stateInv_place (g : GameState) (inv : StateInv g) (pl : Player) (pt : PieceType)
    (pc : Piece) (i : Nat) (hi : i < 16)
    (hempty : cellAt g.board i = none)
    (hmem : pt ∈ poolGet g.pools pl)
    (hplayer : pc.player = pl) (hd : dirOK pc) :
    StateInv { g with
      board := g.board.set i (some pc)
      pools := poolSet g.pools pl ((poolGet g.pools pl).erase pt) } := by
  obtain ⟨hlen, hcount, hdir⟩ := inv
  have hi2 : i < g.board.length := by omega
  refine ⟨by simpa using hlen, ?_, ?_⟩
  · intro q
    have hcs := count_set g.board i hi2 (some pc) q
    rw [hempty] at hcs
    have he1 : ownedBy q none = false := rfl
    have he2 : ownedBy q (some pc) = decide (pc.player = q) := rfl
    rw [he1, he2, if_neg (by simp)] at hcs
    have hq := hcount q
    show countPiecesOnBoard (g.board.set i (some pc)) q
      + (poolGet (poolSet g.pools pl ((poolGet g.pools pl).erase pt)) q).length = 4
    rw [poolGet_poolSet]
    by_cases hqp : q = pl
    · subst hqp
      rw [if_pos rfl, List.length_erase_of_mem hmem]
      have hpos : 0 < (poolGet g.pools q).length := List.length_pos_of_mem hmem
      rw [if_pos (by simp [hplayer])] at hcs
      omega
    · rw [if_neg hqp]
      rw [if_neg (by
        simp only [hplayer, decide_eq_true_eq]
        exact fun hh => hqp hh.symm)] at hcs
      omega
  · intro j pc2 hj
    have hj2 : cellAt (g.board.set i (some pc)) j = some pc2 := hj
    by_cases hij : i = j
    · subst hij
      rw [cellAt_set_self g.board i hi2] at hj2
      obtain rfl : pc = pc2 := Option.some.inj hj2
      exact hd
    · rw [cellAt_set_ne g.board i j hij] at hj2
      exact hdir j pc2 hj2

lemma stateInv_move (g : GameState) (inv : StateInv g) (f t : Nat)
    (hf : f < 16) (ht : t < 16) (hne : f ≠ t) (fromCell : Piece)
    (hfc : cellAt g.board f = some fromCell)
    (hnotown : ownPieceAt g.board t fromCell.player = false) :
    StateInv { g with
      board := (applyMoveCore g.board g.pools f t fromCell).1
      pools := (applyMoveCore g.board g.pools f t fromCell).2 } := by
  obtain ⟨hlen, hcount, hdir⟩ := inv
  have hf2 : f < g.board.length := by omega
  have ht2 : t < g.board.length := by omega
  have hmp : (pawnEdgeAdjust fromCell t).player = fromCell.player :=
    pawnEdgeAdjust_player fromCell t
  have hmd : dirOK (pawnEdgeAdjust fromCell t) :=
    dirOK_pawnEdgeAdjust fromCell t (hdir f fromCell hfc)
  have hcf : cellAt (g.board.set t (some (pawnEdgeAdjust fromCell t))) f = some fromCell := by
    rw [cellAt_set_ne g.board t f (fun hh => hne hh.symm)]
    exact hfc
  have hdirFinal : ∀ j pc2,
      cellAt ((g.board.set t (some (pawnEdgeAdjust fromCell t))).set f none) j = some pc2 →
      dirOK pc2 := by
    intro j pc2 hj
    by_cases hjf : f = j
    · subst hjf
      rw [cellAt_set_self _ f (by simpa using hf2)] at hj
      exact Option.noConfusion hj
    · rw [cellAt_set_ne _ f j hjf] at hj
      by_cases hjt : t = j
      · subst hjt
        rw [cellAt_set_self g.board t ht2] at hj
        obtain rfl : pawnEdgeAdjust fromCell t = pc2 := Option.some.inj hj
        exact hmd
      · rw [cellAt_set_ne g.board t j hjt] at hj
        exact hdir j pc2 hj
  have hlenFinal :
      ((g.board.set t (some (pawnEdgeAdjust fromCell t))).set f none).length = 16 := by
    simp [hlen]
  have hz : (if (false : Bool) = true then (1 : Nat) else 0) = 0 := rfl
  cases htc : cellAt g.board t with
  | none =>
    have hcore : applyMoveCore g.board g.pools f t fromCell
        = ((g.board.set t (some (pawnEdgeAdjust fromCell t))).set f none, g.pools) := by
      unfold applyMoveCore
      rw [htc]
    rw [hcore]
    refine ⟨hlenFinal, ?_, hdirFinal⟩
    intro q
    show countPiecesOnBoard ((g.board.set t (some (pawnEdgeAdjust fromCell t))).set f none) q
      + (poolGet g.pools q).length = 4
    have h1 := count_set g.board t ht2 (some (pawnEdgeAdjust fromCell t)) q
    have h2 := count_set (g.board.set t (some (pawnEdgeAdjust fromCell t))) f
      (by simpa using hf2) none q
    rw [htc] at h1
    rw [hcf] at h2
    have he1 : ownedBy q none = false := rfl
    have he2 : ownedBy q (some (pawnEdgeAdjust fromCell t))
        = decide (fromCell.player = q) := by
      show decide ((pawnEdgeAdjust fromCell t).player = q) = _
      rw [hmp]
    have he3 : ownedBy q (some fromCell) = decide (fromCell.player = q) := rfl
    rw [he1, he2, hz] at h1
    rw [he1, he3, hz] at h2
    have hq := hcount q
    by_cases hfq : fromCell.player = q
    · rw [if_pos (by simp [hfq])] at h1 h2
      omega
    · rw [if_neg (by simp [hfq])] at h1 h2
      omega
  | some tc =>
    have htcp : tc.player ≠ fromCell.player := by
      unfold ownPieceAt at hnotown
      rw [htc] at hnotown
      simpa using hnotown
    have hcore : applyMoveCore g.board g.pools f t fromCell
        = ((g.board.set t (some (pawnEdgeAdjust fromCell t))).set f none,
           poolSet g.pools tc.player (poolGet g.pools tc.player ++ [tc.type])) := by
      unfold applyMoveCore
      rw [htc]
      simp only [if_pos htcp]
    rw [hcore]
    refine ⟨hlenFinal, ?_, hdirFinal⟩
    intro q
    have h1 := count_set g.board t ht2 (some (pawnEdgeAdjust fromCell t)) q
    have h2 := count_set (g.board.set t (some (pawnEdgeAdjust fromCell t))) f
      (by simpa using hf2) none q
    rw [htc] at h1
    rw [hcf] at h2
    have he1 : ownedBy q none = false := rfl
    have he2 : ownedBy q (some (pawnEdgeAdjust fromCell t))
        = decide (fromCell.player = q) := by
      show decide ((pawnEdgeAdjust fromCell t).player = q) = _
      rw [hmp]
    have he3 : ownedBy q (some fromCell) = decide (fromCell.player = q) := rfl
    have he4 : ownedBy q (some tc) = decide (tc.player = q) := rfl
    rw [he2, he4] at h1
    rw [he1, he3, hz] at h2
    have hq := hcount q
    show countPiecesOnBoard ((g.board.set t (some (pawnEdgeAdjust fromCell t))).set f none) q
      + (poolGet (poolSet g.pools tc.player (poolGet g.pools tc.player ++ [tc.type])) q).length
        = 4
    rw [poolGet_poolSet]
    by_cases htq : q = tc.player
    · rw [if_pos htq, List.length_append]
      rw [if_pos (by simp [htq])] at h1
      by_cases hfq : fromCell.player = q
      · exact absurd (hfq.trans htq).symm htcp
      · rw [if_neg (by simp [hfq])] at h1 h2
        simp only [List.length_cons, List.length_nil]
        have hqq : (poolGet g.pools tc.player).length = (poolGet g.pools q).length := by
          rw [htq]
        omega
    · rw [if_neg htq]
      rw [if_neg (by
        simp only [decide_eq_true_eq]
        exact fun hh => htq hh.symm)] at h1
      by_cases hfq : fromCell.player = q
      · rw [if_pos (by simp [hfq])] at h1 h2
        omega
      · rw [if_neg (by simp [hfq])] at h1 h2
        omega

lemma serverPlacedPiece_player (pid : Player) (pt : PieceType) (i : Nat) :
    (serverPlacedPiece pid pt i).player = pid := by
  unfold serverPlacedPiece
  split <;> rfl

lemma dirOK_serverPlacedPiece (pid : Player) (pt : PieceType) (i : Nat) :
    dirOK (serverPlacedPiece pid pt i) := by
  unfold serverPlacedPiece
  by_cases hp : pt = PieceType.P
  · subst hp
    by_cases hcond : PieceType.P = PieceType.P
        ∧ ((12 ≤ i ∧ pid = Player.X) ∨ (i ≤ 3 ∧ pid = Player.O))
    · rw [if_pos hcond]
      intro _hp
      cases pid <;> simp
    · rw [if_neg hcond]
      intro _hp
      cases pid <;> simp
  · rw [if_neg (fun hc => hp hc.1)]
    intro hp2
    exact absurd hp2 hp

lemma dirOK_localPlacedPiece (pl : Player) (pt : PieceType) :
    dirOK (localPlacedPiece pl pt) := by
  unfold localPlacedPiece
  intro hp
  show (if pt = PieceType.P then some (if pl = Player.X then (-1 : Int) else 1) else none)
      = some 1 ∨ _ = some (-1)
  rw [if_pos hp]
  cases pl <;> simp

lemma stateInv_makeMove (g : GameState) (pid : Player) (data : ActionData)
    (inv : StateInv g) (hacc : (makeMove g pid data).2 = none) :
    StateInv (makeMove g pid data).1 := by
  unfold makeMove at hacc ⊢
  by_cases hgo : g.gameOver = true
  · rw [if_pos hgo] at hacc
    exact absurd hacc (by simp)
  · rw [if_neg hgo] at hacc ⊢
    by_cases hturn : g.currentPlayer ≠ pid
    · rw [if_pos hturn] at hacc
      exact absurd hacc (by simp)
    · rw [if_neg hturn] at hacc ⊢
      cases data with
      | other => exact stateInv_advanceTurn g inv
      | place index ptype =>
        dsimp only at hacc ⊢
        by_cases hocc : (cellAt g.board index.val).isSome = true
        · rw [if_pos hocc] at hacc
          exact absurd hacc (by simp)
        · rw [if_neg hocc] at hacc ⊢
          by_cases hmem : ptype ∈ poolGet g.pools pid
          · rw [if_pos hmem]
            exact stateInv_advanceTurn _ (stateInv_place g inv pid ptype
              (serverPlacedPiece pid ptype index.val) index.val index.isLt
              (Option.not_isSome_iff_eq_none.mp hocc) hmem
              (serverPlacedPiece_player pid ptype index.val)
              (dirOK_serverPlacedPiece pid ptype index.val))
          · rw [if_neg hmem] at hacc
            exact absurd hacc (by simp)
      | move f t =>
        dsimp only at hacc ⊢
        by_cases hphase : ¬ bothPlayersHaveThree g.board
        · rw [if_pos hphase] at hacc
          exact absurd hacc (by simp)
        · rw [if_neg hphase] at hacc ⊢
          cases hfc : cellAt g.board f.val with
          | none =>
            rw [hfc] at hacc
            exact absurd hacc (by simp)
          | some fromCell =>
            rw [hfc] at hacc
            dsimp only at hacc ⊢
            by_cases hpl : fromCell.player ≠ pid
            · rw [if_pos hpl] at hacc
              exact absurd hacc (by simp)
            · rw [if_neg hpl] at hacc ⊢
              by_cases hown : ownPieceAt g.board t.val pid = true
              · rw [if_pos hown] at hacc
                exact absurd hacc (by simp)
              · rw [if_neg hown] at hacc ⊢
                by_cases hleg : ¬ isLegalMoveS g.board f.val t.val fromCell = true
                · rw [if_pos hleg] at hacc
                  exact absurd hacc (by simp)
                · rw [if_neg hleg]
                  push_neg at hpl
                  have hown2 : ownPieceAt g.board t.val fromCell.player = false := by
                    rw [hpl]
                    simpa using hown
                  have hne : f.val ≠ t.val := by
                    intro heq
                    unfold ownPieceAt at hown2
                    rw [← heq, hfc] at hown2
                    simp at hown2
                  exact stateInv_advanceTurn _ (stateInv_move g inv f.val t.val f.isLt t.isLt
                    hne fromCell hfc hown2)

lemma stateInv_localPlace (g : GameState) (player : Player) (ptype : PieceType)
    (index : Fin 16) (g2 : GameState) (inv : StateInv g)
    (h : localPlacePiece g player ptype index = some g2) : StateInv g2 := by
  unfold localPlacePiece at h
  by_cases hgo : g.gameOver = true
  · rw [if_pos hgo] at h
    exact absurd h (by simp)
  · rw [if_neg hgo] at h
    by_cases hturn : player ≠ g.currentPlayer
    · rw [if_pos hturn] at h
      exact absurd h (by simp)
    · rw [if_neg hturn] at h
      by_cases hocc : (cellAt g.board index.val).isSome = true
      · rw [if_pos hocc] at h
        exact absurd h (by simp)
      · rw [if_neg hocc] at h
        by_cases hmem : ptype ∈ poolGet g.pools player
        · rw [if_pos hmem] at h
          obtain rfl := Option.some.inj h
          exact stateInv_afterActionLocal _ (stateInv_place g inv player ptype
            (localPlacedPiece player ptype) index.val index.isLt
            (Option.not_isSome_iff_eq_none.mp hocc) hmem rfl
            (dirOK_localPlacedPiece player ptype))
        · rw [if_neg hmem] at h
          exact absurd h (by simp)

lemma stateInv_localMove (g : GameState) (fromIndex toIndex : Fin 16) (g2 : GameState)
    (inv : StateInv g) (h : localTryMovePiece g fromIndex toIndex = some g2) :
    StateInv g2 := by
  unfold localTryMovePiece at h
  by_cases hgo : g.gameOver = true
  · rw [if_pos hgo] at h
    exact absurd h (by simp)
  · rw [if_neg hgo] at h
    by_cases hphase : ¬ bothPlayersHaveThree g.board
    · rw [if_pos hphase] at h
      exact absurd h (by simp)
    · rw [if_neg hphase] at h
      cases hfc : cellAt g.board fromIndex.val with
      | none =>
        rw [hfc] at h
        exact absurd h (by simp)
      | some fromCell =>
        rw [hfc] at h
        dsimp only at h
        by_cases hpl : fromCell.player ≠ g.currentPlayer
        · rw [if_pos hpl] at h
          exact absurd h (by simp)
        · rw [if_neg hpl] at h
          by_cases hft : fromIndex = toIndex
          · rw [if_pos hft] at h
            exact absurd h (by simp)
          · rw [if_neg hft] at h
            by_cases hown : ownPieceAt g.board toIndex.val g.currentPlayer = true
            · rw [if_pos hown] at h
              exact absurd h (by simp)
            · rw [if_neg hown] at h
              by_cases hleg : ¬ isLegalMoveG g.board fromIndex.val toIndex.val fromCell = true
              · rw [if_pos hleg] at h
                exact absurd h (by simp)
              · rw [if_neg hleg] at h
                obtain rfl := Option.some.inj h
                push_neg at hpl
                have hown2 : ownPieceAt g.board toIndex.val fromCell.player = false := by
                  rw [hpl]
                  simpa using hown
                have hne : fromIndex.val ≠ toIndex.val :=
                  fun hh => hft (Fin.ext hh)
                exact stateInv_afterActionLocal _ (stateInv_move g inv fromIndex.val toIndex.val
                  fromIndex.isLt toIndex.isLt hne fromCell hfc hown2)

/-- Every state reachable through the public interface satisfies the
master invariant. -/
lemma reachable_inv {g : GameState} (h : Reachable g) : StateInv g := by
  induction h with
  | init =>
    refine ⟨rfl, by intro pl; cases pl <;> rfl, ?_⟩
    intro i pc hcell
    rw [cellAt, List.getD_eq_getElem?_getD,
      show initialGameState.board = List.replicate 16 none from rfl,
      List.getElem?_replicate] at hcell
    by_cases hi : i < 16
    · rw [if_pos hi] at hcell
      exact absurd hcell (by simp)
    · rw [if_neg hi] at hcell
      exact absurd hcell (by simp)
  | server g pid data _ hacc ih => exact stateInv_makeMove g pid data ih hacc
  | localPlace g player ptype index g2 _ hstep ih =>
    exact stateInv_localPlace g player ptype index g2 ih hstep
  | localMove g fromIndex toIndex g2 _ hstep ih =>
    exact stateInv_localMove g fromIndex toIndex g2 ih hstep

/-- C1.  Material conservation: in every state reachable from the
initial game by accepted place/move actions, each side's pieces on the
board plus the entries in its pool number exactly 4 (placement moves a
kind from pool to board; a capture appends the captured kind to its
owner's pool). -/
theorem C1_material_conservation (g : GameState) (h : Reachable g) (pl : Player) :
    countPiecesOnBoard g.board pl + (poolGet g.pools pl).length = 4 :=
  (reachable_inv h).2.1 pl

/-- Witness for C1 at the initial state. -/
theorem C1_material_conservation_witness :
    countPiecesOnBoard initialGameState.board .X
      + (poolGet initialGameState.pools .X).length = 4 :=
  C1_material_conservation initialGameState Reachable.init .X

/-- C10.  Pawn facing well-formedness: in every reachable state, every
pawn on the board carries `dir = +1` or `dir = -1` (placement assigns
±1 and the edge-rank flip only negates), so the legality checks'
missing-direction branch never fires for pieces placed through the
public interface. -/
theorem C10_pawn_facing_wellformed (g : GameState) (h : Reachable g) (i : Nat) (pc : Piece)
    (hcell : cellAt g.board i = some pc) (hpawn : pc.type = .P) :
    pc.dir = some 1 ∨ pc.dir = some (-1) :=
  (reachable_inv h).2.2 i pc hcell hpawn

/-- Witness for C10: place X's pawn on cell 5 through the server
interface and read its facing back off the board. -/
theorem C10_pawn_facing_wellformed_witness :
    (⟨.X, .P, some (-1)⟩ : Piece).dir = some 1
      ∨ (⟨.X, .P, some (-1)⟩ : Piece).dir = some (-1) :=
  C10_pawn_facing_wellformed (makeMove initialGameState .X (.place 5 .P)).1
    (Reachable.server initialGameState .X (.place 5 .P) Reachable.init (by decide))
    5 ⟨.X, .P, some (-1)⟩ (by decide) rfl

/-- C4 (amended).  The phase is not latched: with the game live and the
submitter on turn, a Move action is rejected as phase-illegal exactly
when, at submission time, some side has fewer than 3 pieces on the
board — so a capture dropping a side below 3 reverts the game to
placement-only. -/
theorem C4_phase_recomputed (gs : GameState) (pid : Player) (f t : Fin 16)
    (hgo : gs.gameOver = false) (hturn : gs.currentPlayer = pid) :
    (makeMove gs pid (.move f t)).2 = some .cannotMoveYet
      ↔ ¬ bothPlayersHaveThree gs.board := by
  unfold makeMove
  rw [if_neg (by simp [hgo]), if_neg (by simp [hturn])]
  dsimp only
  by_cases hph : ¬ bothPlayersHaveThree gs.board
  · rw [if_pos hph]
    simpa using hph
  · rw [if_neg hph]
    constructor
    · intro hEq
      exfalso
      cases hfc : cellAt gs.board f.val with
      | none =>
        rw [hfc] at hEq
        simp at hEq
      | some fromCell =>
        rw [hfc] at hEq
        dsimp only at hEq
        by_cases hpl : fromCell.player ≠ pid
        · rw [if_pos hpl] at hEq
          simp at hEq
        · rw [if_neg hpl] at hEq
          by_cases hown : ownPieceAt gs.board t.val pid = true
          · rw [if_pos hown] at hEq
            simp at hEq
          · rw [if_neg hown] at hEq
            by_cases hleg : ¬ isLegalMoveS gs.board f.val t.val fromCell = true
            · rw [if_pos hleg] at hEq
              simp at hEq
            · rw [if_neg hleg] at hEq
              simp at hEq
    · intro hc
      exact absurd hc hph

/-- Witness for C4 at the initial state (no side has three pieces yet). -/
theorem C4_phase_recomputed_witness :
    (makeMove initialGameState .X (.move 0 1)).2 = some .cannotMoveYet :=
  (C4_phase_recomputed initialGameState .X 0 1 rfl rfl).mpr (by decide)

/-- Folding a scripted action sequence through the server handler. -/
def applySeq (gs : GameState) : List (Player × ActionData) → GameState
  | [] => gs
  | (pid, a) :: rest => applySeq (makeMove gs pid a).1 rest

/-- Every scripted action is accepted (no error emitted). -/
def allAccepted (gs : GameState) : List (Player × ActionData) → Bool
  | [] => true
  | (pid, a) :: rest => (makeMove gs pid a).2.isNone && allAccepted (makeMove gs pid a).1 rest

/-- Three placements per side reach the Flexible phase, then X's rook on
cell 0 captures O's rook on cell 3. -/
def c4Seq : List (Player × ActionData) :=
  [ (.X, .place 0 .R), (.O, .place 3 .R), (.X, .place 4 .N),
    (.O, .place 7 .N), (.X, .place 8 .B), (.O, .place 11 .B), (.X, .move 0 3) ]

/-- C4 counterexample: a reachable Flexible state (after six accepted
placements both sides have 3 on board) is followed by an accepted capture
that drops O to two pieces, after which O's knight move is rejected as
phase-illegal — the transition to Flexible is not one-way. -/
theorem C4_counterexample :
    allAccepted initialGameState c4Seq = true
    ∧ bothPlayersHaveThree (applySeq initialGameState (c4Seq.take 6)).board
    ∧ (makeMove (applySeq initialGameState c4Seq) .O (.move 7 14)).2
        = some .cannotMoveYet := by
  refine ⟨by decide, by decide, by decide⟩

/-- C6 (amended).  Whenever the server's `makeMove` handler reports an
error (game over, wrong turn, occupied cell, piece unavailable, phase
violation, invalid source, own-capture, illegal geometry), the game
state is returned unchanged. -/
theorem C6_rejection_atomic (gs : GameState) (pid : Player) (data : ActionData)
    (e : ServerErr) (h : (makeMove gs pid data).2 = some e) :
    (makeMove gs pid data).1 = gs := by
  unfold makeMove at h ⊢
  by_cases hgo : gs.gameOver = true
  · rw [if_pos hgo]
  · rw [if_neg hgo] at h ⊢
    by_cases hturn : gs.currentPlayer ≠ pid
    · rw [if_pos hturn]
    · rw [if_neg hturn] at h ⊢
      cases data with
      | other =>
        dsimp only at h
        exact absurd h (by simp)
      | place index ptype =>
        dsimp only at h ⊢
        by_cases hocc : (cellAt gs.board index.val).isSome = true
        · rw [if_pos hocc]
        · rw [if_neg hocc] at h ⊢
          by_cases hmem : ptype ∈ poolGet gs.pools pid
          · rw [if_pos hmem] at h
            exact absurd h (by simp)
          · rw [if_neg hmem]
      | move f t =>
        dsimp only at h ⊢
        by_cases hph : ¬ bothPlayersHaveThree gs.board
        · rw [if_pos hph]
        · rw [if_neg hph] at h ⊢
          cases hfc : cellAt gs.board f.val with
          | none =>
            dsimp only
          | some fromCell =>
            rw [hfc] at h
            dsimp only at h ⊢
            by_cases hpl : fromCell.player ≠ pid
            · rw [if_pos hpl]
            · rw [if_neg hpl] at h ⊢
              by_cases hown : ownPieceAt gs.board t.val pid = true
              · rw [if_pos hown]
              · rw [if_neg hown] at h ⊢
                by_cases hleg : ¬ isLegalMoveS gs.board f.val t.val fromCell = true
                · rw [if_pos hleg]
                · rw [if_neg hleg] at h
                  exact absurd h (by simp)

/-- Witness for C6: O moving out of turn on the fresh game is rejected
and the state is untouched. -/
theorem C6_rejection_atomic_witness :
    (makeMove initialGameState .O (.place 0 .P)).1 = initialGameState :=
  C6_rejection_atomic initialGameState .O (.place 0 .P) .notYourTurn (by decide)

/-- C6 counterexample: a submitted action whose kind is neither place nor
move is not rejected — no error is emitted and the handler still toggles
the side to move, so the state changes without any error report. -/
theorem C6_counterexample_unrecognized_action :
    (makeMove initialGameState .X .other).2 = none
    ∧ (makeMove initialGameState .X .other).1.currentPlayer = .O := by
  refine ⟨by decide, by decide⟩

/-! ### The search AI (`minimax` with alpha-beta pruning, AI plays O) -/

/-- An enumerated AI action: `{kind:"place", index, type}` or
`{kind:"move", from, to}`. -/
inductive AiAction where
  | place (index : Nat) (ptype : PieceType)
  | move (fromIndex toIndex : Nat)
deriving DecidableEq, Repr

/-- `getAllLegalPlacementsFor`: every empty cell × every pool entry,
cell-major, in pool order. -/
def getAllLegalPlacementsFor (b : Board) (p : Pools) (player : Player) : List AiAction :=
  if (poolGet p player).isEmpty then []
  else
    (List.range 16).flatMap fun i =>
      if (cellAt b i).isSome then []
      else (poolGet p player).map fun t => .place i t

/-- `getAllLegalMovesFor`: every owned source × every non-own target
passing the geometry check, source-major then target order. -/
def getAllLegalMovesFor (b : Board) (_p : Pools) (player : Player) : List AiAction :=
  (List.range 16).flatMap fun i =>
    match cellAt b i with
    | none => []
    | some cell =>
      if cell.player ≠ player then []
      else
        (List.range 16).flatMap fun j =>
          if i = j then []
          else if ownPieceAt b j player then []
          else if isLegalMoveG b i j cell then [.move i j]
          else []

/-- `getAllActions`: placements, then (only once both sides have three on
board) moves. -/
def getAllActions (b : Board) (p : Pools) (player : Player) : List AiAction :=
  getAllLegalPlacementsFor b p player
    ++ (if bothPlayersHaveThree b then getAllLegalMovesFor b p player else [])

/-- `applyPlacement` of the AI simulation: silently does nothing when the
kind is missing from the pool. -/
def applyPlacement (b : Board) (p : Pools) (player : Player) (ptype : PieceType)
    (index : Nat) : Board × Pools :=
  if ptype ∈ poolGet p player then
    (b.set index (some (localPlacedPiece player ptype)),
     poolSet p player ((poolGet p player).erase ptype))
  else (b, p)

/-- `applyMove` of the AI simulation: silently does nothing when the
source is empty; otherwise the shared capture/move/edge-flip effect. -/
def applyMoveAI (b : Board) (p : Pools) (fromIndex toIndex : Nat) : Board × Pools :=
  match cellAt b fromIndex with
  | none => (b, p)
  | some fromCell => applyMoveCore b p fromIndex toIndex fromCell

/-- Applying one enumerated action for the given side (the minimax loops
place for the side to move and apply moves player-independently). -/
def applyAiAction (b : Board) (p : Pools) (player : Player) : AiAction → Board × Pools
  | .place index ptype => applyPlacement b p player ptype index
  | .move f t => applyMoveAI b p f t

/-- `MINIMAX_WIN = 100`. -/
def MINIMAX_WIN : Int := 100

/-- `MINIMAX_LOSS = -100`. -/
def MINIMAX_LOSS : Int := -100

/-- `MAX_DEPTH = 2`, the default ply limit. -/
def MAX_DEPTH : Nat := 2

/-- The maximizing loop of `minimax` with alpha-beta pruning, taking the
depth-one-deeper evaluation as a function. -/
def abMax (eval2 : Board → Pools → Int → Int → Int) (b : Board) (p : Pools) :
    List AiAction → Int → Int → Int → Int
  | [], best, _, _ => best
  | a :: rest, best, alpha, beta =>
    if beta ≤ max alpha (eval2 (applyAiAction b p .O a).1 (applyAiAction b p .O a).2 alpha beta)
    then max best (eval2 (applyAiAction b p .O a).1 (applyAiAction b p .O a).2 alpha beta)
    else abMax eval2 b p rest
      (max best (eval2 (applyAiAction b p .O a).1 (applyAiAction b p .O a).2 alpha beta))
      (max alpha (eval2 (applyAiAction b p .O a).1 (applyAiAction b p .O a).2 alpha beta))
      beta

/-- The minimizing loop of `minimax` with alpha-beta pruning. -/
def abMin (eval2 : Board → Pools → Int → Int → Int) (b : Board) (p : Pools) :
    List AiAction → Int → Int → Int → Int
  | [], best, _, _ => best
  | a :: rest, best, alpha, beta =>
    if min beta (eval2 (applyAiAction b p .X a).1 (applyAiAction b p .X a).2 alpha beta) ≤ alpha
    then min best (eval2 (applyAiAction b p .X a).1 (applyAiAction b p .X a).2 alpha beta)
    else abMin eval2 b p rest
      (min best (eval2 (applyAiAction b p .X a).1 (applyAiAction b p .X a).2 alpha beta))
      alpha
      (min beta (eval2 (applyAiAction b p .X a).1 (applyAiAction b p .X a).2 alpha beta))

/-- The terminal tests at the head of `minimax`, in source order: a
winner for O scores `WIN - depth`, a winner for X scores `LOSS + depth`,
a full board scores 0, hitting the ply limit scores 0, and an empty
action set scores 0; `none` means the search recurses. -/
def minimaxTerminal (b : Board) (p : Pools) (depth : Nat) (isMax : Bool) : Option Int :=
  match checkWinner b with
  | some w =>
    some (if w = .O then MINIMAX_WIN - (depth : Int) else MINIMAX_LOSS + (depth : Int))
  | none =>
    if isBoardFull b then some 0
    else if MAX_DEPTH ≤ depth then some 0
    else if (getAllActions b p (if isMax then .O else .X)).isEmpty then some 0
    else none

/-- `minimax(b, p, depth, isMaximizing, alpha, beta)`.  The `fuel`
argument is the remaining depth budget `MAX_DEPTH - depth` of the
JavaScript recursion, made explicit so the recursion is structural; the
non-terminal zero-fuel fallback is unreachable because a state that is
not terminal has `depth < MAX_DEPTH` and hence positive budget. -/
def minimaxAux : Nat → Board → Pools → Nat → Bool → Int → Int → Int
  | 0, b, p, depth, isMax, _, _ => (minimaxTerminal b p depth isMax).getD 0
  | fuel2 + 1, b, p, depth, isMax, alpha, beta =>
    match minimaxTerminal b p depth isMax with
    | some v => v
    | none =>
      if isMax then
        abMax (fun b2 p2 a2 b3 => minimaxAux fuel2 b2 p2 (depth + 1) false a2 b3)
          b p (getAllActions b p .O) MINIMAX_LOSS alpha beta
      else
        abMin (fun b2 p2 a2 b3 => minimaxAux fuel2 b2 p2 (depth + 1) true a2 b3)
          b p (getAllActions b p .X) MINIMAX_WIN alpha beta

/-- `minimax` proper: the fuel is the remaining depth budget. -/
def minimax (b : Board) (p : Pools) (depth : Nat) (isMax : Bool) (alpha beta : Int) : Int :=
  minimaxAux (MAX_DEPTH - depth) b p depth isMax alpha beta

/-- The score `getBestAiAction` computes for one root action:
`minimax(apply(action), 0, false, MINIMAX_LOSS, MINIMAX_WIN)`. -/
def rootScore (b : Board) (p : Pools) (a : AiAction) : Int :=
  minimax (applyAiAction b p .O a).1 (applyAiAction b p .O a).2 0 false
    MINIMAX_LOSS MINIMAX_WIN

/-- The root selection loop of `getBestAiAction`: keep the first action
whose score strictly beats the best so far. -/
def selectLoop (b : Board) (p : Pools) :
    List AiAction → Int → Option AiAction → Option AiAction
  | [], _, bestAction => bestAction
  | a :: rest, bestScore, bestAction =>
    if bestScore < rootScore b p a then selectLoop b p rest (rootScore b p a) (some a)
    else selectLoop b p rest bestScore bestAction

/-- `getBestAiAction()`: null on an empty action set, else the selection
loop starting from `bestScore = MINIMAX_LOSS`, `bestAction = null`. -/
def getBestAiAction (b : Board) (p : Pools) : Option AiAction :=
  if (getAllActions b p .O).isEmpty then none
  else selectLoop b p (getAllActions b p .O) MINIMAX_LOSS none

/-- C7.  Terminal scoring of the search: with O (the maximizing side)
alone owning a line the value is `+BASE - depth`; with X alone owning a
line it is `-BASE + depth`; a full board with no line is 0; and reaching
the ply limit (`MAX_DEPTH = 2`) with no line and a non-full board is 0 —
for every board, pools, depth and alpha/beta window. -/
theorem C7_minimax_terminal (b : Board) (p : Pools) (depth : Nat) (isMax : Bool)
    (alpha beta : Int) :
    (sideHasLine b .O ∧ ¬ sideHasLine b .X →
      minimax b p depth isMax alpha beta = MINIMAX_WIN - (depth : Int))
    ∧ (sideHasLine b .X ∧ ¬ sideHasLine b .O →
      minimax b p depth isMax alpha beta = MINIMAX_LOSS + (depth : Int))
    ∧ (¬ (∃ q, sideHasLine b q) ∧ isBoardFull b = true →
      minimax b p depth isMax alpha beta = 0)
    ∧ (¬ (∃ q, sideHasLine b q) ∧ isBoardFull b = false ∧ MAX_DEPTH ≤ depth →
      minimax b p depth isMax alpha beta = 0) := by
  have haux : ∀ v : Int, minimaxTerminal b p depth isMax = some v →
      minimax b p depth isMax alpha beta = v := by
    intro v hterm
    unfold minimax
    cases MAX_DEPTH - depth with
    | zero =>
      unfold minimaxAux
      rw [hterm]
      rfl
    | succ fuel2 =>
      unfold minimaxAux
      rw [hterm]
  refine ⟨?_, ?_, ?_, ?_⟩
  · rintro ⟨hO, hX⟩
    have hw : checkWinner b = some .O := checkWinner_eq_of_only hO hX
    refine haux _ ?_
    unfold minimaxTerminal
    rw [hw]
    simp
  · rintro ⟨hX, hO⟩
    have hw : checkWinner b = some .X := checkWinner_eq_of_only hX hO
    refine haux _ ?_
    unfold minimaxTerminal
    rw [hw]
    simp
  · rintro ⟨hno, hfull⟩
    have hw : checkWinner b = none := (checkWinner_eq_none_iff b).mpr hno
    refine haux _ ?_
    unfold minimaxTerminal
    rw [hw]
    dsimp only
    rw [if_pos hfull]
  · rintro ⟨hno, hfull, hdep⟩
    have hw : checkWinner b = none := (checkWinner_eq_none_iff b).mpr hno
    refine haux _ ?_
    unfold minimaxTerminal
    rw [hw]
    dsimp only
    rw [if_neg (by simp [hfull]), if_pos hdep]

/-- O's four pieces fill row 0. -/
def oRowBoard : Board :=
  [some ⟨.O, .R, none⟩, some ⟨.O, .N, none⟩, some ⟨.O, .B, none⟩, some ⟨.O, .P, some 1⟩]
    ++ List.replicate 12 none

/-- A full 16-cell board with no four-in-a-row for either side. -/
def mixedFullBoard : Board :=
  [some ⟨.X, .R, none⟩, some ⟨.X, .N, none⟩, some ⟨.O, .R, none⟩, some ⟨.O, .N, none⟩,
   some ⟨.O, .B, none⟩, some ⟨.O, .P, some 1⟩, some ⟨.X, .B, none⟩, some ⟨.X, .P, some 1⟩,
   some ⟨.X, .R, none⟩, some ⟨.X, .N, none⟩, some ⟨.O, .R, none⟩, some ⟨.O, .N, none⟩,
   some ⟨.O, .B, none⟩, some ⟨.O, .P, some 1⟩, some ⟨.X, .B, none⟩, some ⟨.X, .P, some 1⟩]

/-- Witness for C7: one concrete board per terminal case. -/
theorem C7_minimax_terminal_witness :
    minimax oRowBoard initialGameState.pools 0 true (-100) 100 = 100
    ∧ minimax demoRowBoard initialGameState.pools 0 true (-100) 100 = -100
    ∧ minimax mixedFullBoard initialGameState.pools 1 false (-100) 100 = 0
    ∧ minimax initialGameState.board initialGameState.pools 2 true (-100) 100 = 0 := by
  refine ⟨?_, ?_, ?_, ?_⟩
  · simpa using
      (C7_minimax_terminal oRowBoard initialGameState.pools 0 true (-100) 100).1
        ⟨by decide, by decide⟩
  · simpa using
      (C7_minimax_terminal demoRowBoard initialGameState.pools 0 true (-100) 100).2.1
        ⟨by decide, by decide⟩
  · exact (C7_minimax_terminal mixedFullBoard initialGameState.pools 1 false (-100) 100).2.2.1
      ⟨by decide, by decide⟩
  · exact (C7_minimax_terminal initialGameState.board initialGameState.pools 2 true
      (-100) 100).2.2.2 ⟨by decide, by decide, by decide⟩

/-- Row 0 is all X and row 1 all O: both sides own a full line. -/
def bothLinesBoard : Board :=
  [some ⟨.X, .R, none⟩, some ⟨.X, .N, none⟩, some ⟨.X, .B, none⟩, some ⟨.X, .P, some 1⟩,
   some ⟨.O, .R, none⟩, some ⟨.O, .N, none⟩, some ⟨.O, .B, none⟩, some ⟨.O, .P, some 1⟩]
    ++ List.replicate 8 none

/-- C7 counterexample: on a board where the maximizing side O owns row 1
but X owns row 0, the scan reports X (rows are checked first in the fixed
line order) and the search scores `-BASE + depth`, not `+BASE - depth` —
so "returns +BASE - depth when the maximizing side has a winning line"
fails as stated for every board. -/
theorem C7_counterexample :
    sideHasLine bothLinesBoard .O
    ∧ minimax bothLinesBoard initialGameState.pools 0 true (-100) 100 = -100
    ∧ (-100 : Int) ≠ MINIMAX_WIN - ((0 : Nat) : Int) := by
  refine ⟨by decide, by decide, by decide⟩

lemma selectLoop_some_ne_none (b : Board) (p : Pools) (acts : List AiAction) :
    ∀ (s : Int) (a0 : AiAction), selectLoop b p acts s (some a0) ≠ none := by
  induction acts with
  | nil =>
    intro s a0
    simp [selectLoop]
  | cons a rest ih =>
    intro s a0
    unfold selectLoop
    split
    · exact ih _ _
    · exact ih _ _

lemma selectLoop_none_iff (b : Board) (p : Pools) (acts : List AiAction) :
    ∀ s : Int, (selectLoop b p acts s none = none ↔ ∀ a ∈ acts, rootScore b p a ≤ s) := by
  induction acts with
  | nil =>
    intro s
    simp [selectLoop]
  | cons a rest ih =>
    intro s
    unfold selectLoop
    by_cases hlt : s < rootScore b p a
    · rw [if_pos hlt]
      constructor
      · intro h
        exact absurd h (selectLoop_some_ne_none b p rest _ _)
      · intro h
        exact absurd (h a (List.mem_cons_self a rest)) (by omega)
    · rw [if_neg hlt]
      rw [ih s]
      constructor
      · intro h x hx
        rcases List.mem_cons.mp hx with rfl | hx2
        · omega
        · exact h x hx2
      · intro h x hx
        exact h x (List.mem_cons_of_mem a hx)

/-- C8 (amended).  `getBestAiAction` returns null exactly when no
enumerated action's root score strictly exceeds the initial best score
`MINIMAX_LOSS` — vacuously so when the action set is empty; in
particular, whenever some action scores above `-100`, an action is
returned. -/
theorem C8_null_iff_no_improving_action (b : Board) (p : Pools) :
    getBestAiAction b p = none
      ↔ ∀ a ∈ getAllActions b p .O, rootScore b p a ≤ MINIMAX_LOSS := by
  unfold getBestAiAction
  by_cases he : (getAllActions b p .O).isEmpty = true
  · rw [if_pos he]
    have hnil : getAllActions b p .O = [] := List.isEmpty_iff.mp he
    simp [hnil]
  · rw [if_neg he]
    exact selectLoop_none_iff b p _ MINIMAX_LOSS

/-- Pools for the C8 counterexample: O still holds all four kinds. -/
def c8Pools : Pools := { x := [], o := [.P, .R, .N, .B] }

/-- C8 counterexample: on a board where X already owns row 0, O has 48
legal placements, every one of which scores `-100`, and the selector
returns null despite the nonempty action set — refuting "null iff the
action set is empty". -/
theorem C8_counterexample :
    getAllActions demoRowBoard c8Pools .O ≠ []
    ∧ getBestAiAction demoRowBoard c8Pools = none := by
  refine ⟨by decide, by decide⟩

/-! ### The Room Manager's disconnect handler (`server.js`) -/

/-- A room: its connection list and its authoritative game. -/
structure RoomT where
  players : List Nat
  gameState : GameState
deriving DecidableEq, Repr

/-- The `reason` field of a `playerDisconnected` notice. -/
inductive DiscReason where
  | opponentDisconnected
  | waiting
deriving DecidableEq, Repr

/-- The messages the disconnect handler emits to the room's remaining
occupant(s). -/
inductive DiscEvent where
  | playerDisconnected (who : Player) (reason : DiscReason)
  | gameStateUpdate (gs : GameState)
deriving DecidableEq, Repr

/-- The `disconnect` handler of `server.js`, for a socket `sid` (with
side `selfPid`) that belongs to `room`; `pmap` is the `players` session
registry.  Returns the surviving room (`none` when the now-empty room is
deleted) and the events sent to the remaining occupant(s). -/
def handleDisconnect (room : RoomT) (pmap : Nat → Option Player) (sid : Nat)
    (selfPid : Player) : Option RoomT × List DiscEvent :=
  if (room.players.filter (fun idd => idd ≠ sid)).length = 0 then (none, [])
  else if room.players.length = 2 then
    match (room.players.filter (fun idd => idd ≠ sid)).head? with
    | some rid =>
      match pmap rid with
      | some rpid =>
        if room.gameState.gameOver = false then
          (some { players := room.players.filter (fun idd => idd ≠ sid),
                  gameState :=
                    { room.gameState with gameOver := true, winner := some rpid } },
           [.playerDisconnected selfPid .opponentDisconnected,
            .gameStateUpdate { room.gameState with gameOver := true, winner := some rpid }])
        else
          (some { room with players := room.players.filter (fun idd => idd ≠ sid) }, [])
      | none =>
        (some { room with players := room.players.filter (fun idd => idd ≠ sid) }, [])
    | none =>
      (some { room with players := room.players.filter (fun idd => idd ≠ sid) }, [])
  else
    (some { room with players := room.players.filter (fun idd => idd ≠ sid) },
     [.playerDisconnected selfPid .waiting])

/-- The two-occupant win path of the disconnect handler, abstracted over
which occupant remains after the filter. -/
lemma handleDisconnect_two (room : RoomT) (pmap : Nat → Option Player)
    (sid other : Nat) (selfPid pOther : Player)
    (hfilter : room.players.filter (fun idd => idd ≠ sid) = [other])
    (hlen : room.players.length = 2)
    (hmap : pmap other = some pOther) (hlive : room.gameState.gameOver = false) :
    (handleDisconnect room pmap sid selfPid).1
        = some { players := [other],
                 gameState := { room.gameState with gameOver := true, winner := some pOther } }
    ∧ DiscEvent.playerDisconnected selfPid .opponentDisconnected
        ∈ (handleDisconnect room pmap sid selfPid).2 := by
  unfold handleDisconnect
  rw [hfilter]
  rw [if_neg (by simp), if_pos hlen]
  dsimp only [List.head?]
  rw [hmap]
  dsimp only
  rw [if_pos hlive]
  exact ⟨rfl, List.mem_cons_self _ _⟩

/-- C9.  Disconnect resolution: when either socket of a two-occupant
room disconnects while the game is not over, the game is marked over
with the remaining occupant's side as winner and that occupant is
notified; when the disconnecting socket was the room's only member, the
room is discarded entirely. -/
theorem C9_disconnect_resolution (room : RoomT) (pmap : Nat → Option Player)
    (s1 s2 sid other : Nat) (pOther : Player) (selfPid : Player)
    (hplayers : room.players = [s1, s2]) (hne : s1 ≠ s2)
    (hsid : (sid = s1 ∧ other = s2) ∨ (sid = s2 ∧ other = s1))
    (hmap : pmap other = some pOther) (hlive : room.gameState.gameOver = false) :
    ((handleDisconnect room pmap sid selfPid).1
        = some { players := [other],
                 gameState := { room.gameState with gameOver := true, winner := some pOther } }
      ∧ DiscEvent.playerDisconnected selfPid .opponentDisconnected
          ∈ (handleDisconnect room pmap sid selfPid).2)
    ∧ ∀ room2 : RoomT, room2.players = [sid] →
        (handleDisconnect room2 pmap sid selfPid).1 = none := by
  constructor
  · have hlen : room.players.length = 2 := by
      rw [hplayers]
      rfl
    rcases hsid with ⟨h1, h2⟩ | ⟨h1, h2⟩
    · subst h1
      subst h2
      refine handleDisconnect_two room pmap sid other selfPid pOther ?_ hlen hmap hlive
      rw [hplayers]
      have hd1 : (decide (sid ≠ sid)) = false := by simp
      have hd2 : (decide (other ≠ sid)) = true := by simp [Ne.symm hne]
      simp [List.filter, hd1, hd2]
    · subst h1
      subst h2
      refine handleDisconnect_two room pmap sid other selfPid pOther ?_ hlen hmap hlive
      rw [hplayers]
      have hd1 : (decide (other ≠ sid)) = true := by simp [hne]
      have hd2 : (decide (sid ≠ sid)) = false := by simp
      simp [List.filter, hd1, hd2]
  · intro room2 h2
    have hfilter2 : room2.players.filter (fun idd => idd ≠ sid) = [] := by
      rw [h2]
      simp [List.filter]
    unfold handleDisconnect
    rw [hfilter2]
    rw [if_pos (show ([] : List Nat).length = 0 by rfl)]

/-- The demonstration room and session registry for the C9 witness:
sockets 0 (side X) and 1 (side O) share a fresh game. -/
def demoRoom : RoomT := { players := [0, 1], gameState := initialGameState }

/-- Demonstration session registry: socket 0 is X, socket 1 is O. -/
def demoPmap : Nat → Option Player :=
  fun n => if n = 0 then some .X else if n = 1 then some .O else none

/-- Witness for C9, exercising both occupant positions: socket 0 (X,
listed first) disconnecting awards the win to O, socket 1 (O, listed
second) disconnecting awards the win to X, and a singleton room is
deleted. -/
theorem C9_disconnect_resolution_witness :
    ((handleDisconnect demoRoom demoPmap 0 .X).1
        = some { players := [1],
                 gameState :=
                   { demoRoom.gameState with gameOver := true, winner := some .O } }
      ∧ (handleDisconnect demoRoom demoPmap 1 .O).1
        = some { players := [0],
                 gameState :=
                   { demoRoom.gameState with gameOver := true, winner := some .X } })
    ∧ ∀ room2 : RoomT, room2.players = [1] →
        (handleDisconnect room2 demoPmap 1 .O).1 = none :=
  ⟨⟨(C9_disconnect_resolution demoRoom demoPmap 0 1 0 1 .O .X rfl (by decide)
        (Or.inl ⟨rfl, rfl⟩) (by decide) rfl).1.1,
    (C9_disconnect_resolution demoRoom demoPmap 0 1 1 0 .X .O rfl (by decide)
        (Or.inr ⟨rfl, rfl⟩) (by decide) rfl).1.1⟩,
   (C9_disconnect_resolution demoRoom demoPmap 0 1 1 0 .X .O rfl (by decide)
        (Or.inr ⟨rfl, rfl⟩) (by decide) rfl).2⟩

end ChessTTT
